import Mathlib

/-!
Verification of the home-directory runtime core of the Aftman/Rokit toolchain
manager against its specification.

Strings are modelled as `List Char`.  The three source files embedded here are
`src/lib/system/toolchain.rs`, `src/lib/storage/home.rs` and
`src/lib/manifests/auth.rs`.  The format-preserving TOML document model used by
the auth manifest lives in the external `toml_edit` crate, whose code is not
part of the repository; it is modelled from the specification (§4.1, §6) as a
line-based, trivia-preserving table-of-scalars document.
-/

/-- Embedding of Rust `str::contains`: `needle` occurs as a contiguous
substring of `haystack` (the empty needle always matches). -/
def strContains : List Char → List Char → Bool
  | [], needle => needle.isEmpty
  | c :: rest, needle => List.isPrefixOf needle (c :: rest) || strContains rest needle

/-- Valid code points below the surrogate range produce a `Char` whose
`toNat` is the original number. -/
theorem char_toNat_ofNat_valid (n : Nat) (h : n.isValidChar) : (Char.ofNat n).toNat = n := by
  rw [Char.ofNat, dif_pos h]; rfl

/-- ASCII case folding is idempotent. -/
theorem char_toLower_idem (c : Char) : (c.toLower).toLower = c.toLower := by
  simp only [Char.toLower]
  by_cases h : c.toNat ≥ 65 ∧ c.toNat ≤ 90
  · rw [if_pos h]
    have hv : (c.toNat + 32).isValidChar := Or.inl (by omega)
    have h2 : (Char.ofNat (c.toNat + 32)).toNat = c.toNat + 32 := char_toNat_ofNat_valid _ hv
    rw [if_neg (by omega)]
  · rw [if_neg h, if_neg h]

/-- Embedding of Rust `str::to_lowercase` as used by `Toolchain::detect`
(`src/lib/system/toolchain.rs`).  Rust's `to_lowercase` additionally applies
Unicode lowercase mappings to non-ASCII characters; these are not modelled,
since none of them is relevant to the ASCII keyword sets searched here.
The ASCII folding that the keywords can observe is modelled exactly. -/
def rustToLowercase (s : List Char) : List Char := s.map Char.toLower

/-- The spec's `lowercase_ascii`: fold only ASCII letters, leave every other
character unchanged (spec §4.3 step 1). -/
def lowercaseAscii (s : List Char) : List Char := s.map Char.toLower

/-- Keyword set for the MSVC variant (`KEYWORDS_MSVC` in toolchain.rs). -/
def KEYWORDS_MSVC : List (List Char) := [['m', 's', 'v', 'c']]

/-- Keyword set for the GNU variant (`KEYWORDS_GNU` in toolchain.rs). -/
def KEYWORDS_GNU : List (List Char) := [['g', 'n', 'u']]

/-- Keyword set for the MUSL variant (`KEYWORDS_MUSL` in toolchain.rs). -/
def KEYWORDS_MUSL : List (List Char) := [['m', 'u', 's', 'l']]

/-- The `Toolchain` enum from `src/lib/system/toolchain.rs`. -/
inductive Toolchain
  | Msvc
  | Gnu
  | Musl
deriving DecidableEq, Repr

/-- Embedding of `Toolchain::detect`: lowercase the search string, then try the
MSVC, GNU and MUSL keyword sets in that order, returning the first variant one
of whose keywords occurs as a substring. -/
def Toolchain.detect (searchString : List Char) : Option Toolchain :=
  let lowercased := rustToLowercase searchString
  if KEYWORDS_MSVC.any (fun k => strContains lowercased k) then some Toolchain.Msvc
  else if KEYWORDS_GNU.any (fun k => strContains lowercased k) then some Toolchain.Gnu
  else if KEYWORDS_MUSL.any (fun k => strContains lowercased k) then some Toolchain.Musl
  else none

/-- Embedding of `Toolchain::current`, which is unimplemented in the source
and always returns `None`. -/
def Toolchain.current : Option Toolchain := none

/-- Lowercasing an already ASCII-folded string gives the same result as
lowercasing the original string. -/
theorem rustToLowercase_lowercaseAscii (s : List Char) :
    rustToLowercase (lowercaseAscii s) = rustToLowercase s := by
  unfold rustToLowercase lowercaseAscii
  induction s with
  | nil => rfl
  | cons c rest ih => simp only [List.map_cons, ih, char_toLower_idem]

/-- C6: when keywords of more than one toolchain variant occur in the search
string, `Toolchain::detect` returns the first variant in the fixed order
MSVC → GNU → MUSL whose keyword set matches: an MSVC keyword match wins
outright; a GNU keyword match wins whenever no MSVC keyword matches; a MUSL
keyword match wins only when neither an MSVC nor a GNU keyword matches. -/
theorem toolchain_detect_precedence (s : List Char) :
    (KEYWORDS_MSVC.any (fun k => strContains (rustToLowercase s) k) = true →
      Toolchain.detect s = some Toolchain.Msvc) ∧
    (KEYWORDS_MSVC.any (fun k => strContains (rustToLowercase s) k) = false →
      KEYWORDS_GNU.any (fun k => strContains (rustToLowercase s) k) = true →
      Toolchain.detect s = some Toolchain.Gnu) ∧
    (KEYWORDS_MSVC.any (fun k => strContains (rustToLowercase s) k) = false →
      KEYWORDS_GNU.any (fun k => strContains (rustToLowercase s) k) = false →
      KEYWORDS_MUSL.any (fun k => strContains (rustToLowercase s) k) = true →
      Toolchain.detect s = some Toolchain.Musl) := by
  refine ⟨fun hm => ?_, fun hm hg => ?_, fun hm hg hu => ?_⟩
  · simp [Toolchain.detect, hm]
  · simp [Toolchain.detect, hm, hg]
  · simp [Toolchain.detect, hm, hg, hu]

/-- The search string of spec scenario S4 whose precedence example the claim
cites: a string containing both GNU and MSVC keywords. -/
def exampleHybrid : List Char :=
  ['G', 'N', 'U', '-', 'M', 'S', 'V', 'C', '-', 'h', 'y', 'b', 'r', 'i', 'd']

/-- Witness for C6: on the concrete input of scenario S4 both the GNU and the
MSVC keyword occur, and `detect` returns MSVC by precedence. -/
theorem toolchain_detect_precedence_witness :
    (KEYWORDS_MSVC.any (fun k => strContains (rustToLowercase exampleHybrid) k) = true ∧
      KEYWORDS_GNU.any (fun k => strContains (rustToLowercase exampleHybrid) k) = true) ∧
    Toolchain.detect exampleHybrid = some Toolchain.Msvc :=
  ⟨by decide, (toolchain_detect_precedence exampleHybrid).1 (by decide)⟩

/-- C7: `Toolchain::detect` is invariant under ASCII-only lowercase folding of
its input: `detect s = detect (lowercase_ascii s)` for every string `s`. -/
theorem toolchain_detect_lowercase_invariant (s : List Char) :
    Toolchain.detect s = Toolchain.detect (lowercaseAscii s) := by
  unfold Toolchain.detect
  rw [rustToLowercase_lowercaseAscii]

/-- Error kinds surfaced by the core (`AftmanError` in `src/lib/result.rs`,
which is not under the embedded sources).  Modelled from the spec: §7 lists
exactly these four kinds; the payloads (paths, causes) carried by the real
variants are not modelled, only the kind. -/
inductive AftmanError
  | HomeNotFound
  | FileNotFound
  | Io
  | Parse
deriving DecidableEq, Repr

/-- State of a successfully loaded `Home` coordinator
(`src/lib/storage/home.rs`).  The sub-store types are abstract parameters
since the sub-store code is outside the embedded sources; `didSave` is the
`did_save` atomic flag. -/
structure HomeState (α β γ : Type) where
  path : List Char
  didSave : Bool
  trust_cache : α
  install_cache : β
  tool_storage : γ
deriving Repr

/-- Embedding of `Home::load_from_path`: the three sub-store loads run under
`tokio::try_join!`; their results are passed in as arguments since the
sub-store code is outside the embedded sources.  All three must succeed for a
coordinator to be produced, the save flag starts out false, and a failure of
any load fails the whole call with that error. -/
def homeLoadFromPath {α β γ : Type} (path : List Char)
    (trustRes : Except AftmanError α) (installRes : Except AftmanError β)
    (storageRes : Except AftmanError γ) : Except AftmanError (HomeState α β γ) := do
  let trust_cache ← trustRes
  let install_cache ← installRes
  let tool_storage ← storageRes
  pure { path := path, didSave := false, trust_cache := trust_cache,
         install_cache := install_cache, tool_storage := tool_storage }

/-- C4: if any one of the three sub-store loads fails during
`Home::load_from_path`, the whole load fails with that error and no
coordinator is produced; when all three succeed, the coordinator holds exactly
the three loaded sub-stores and an unset save flag. -/
theorem home_load_from_path_error_isolation {α β γ : Type} (path : List Char)
    (e : AftmanError) (t : α) (i : β) (g : γ) :
    homeLoadFromPath path (Except.error e : Except AftmanError α)
      (Except.ok i) (Except.ok g) = Except.error e ∧
    homeLoadFromPath path (Except.ok t) (Except.error e : Except AftmanError β)
      (Except.ok g) = Except.error e ∧
    homeLoadFromPath path (Except.ok t) (Except.ok i)
      (Except.error e : Except AftmanError γ) = Except.error e ∧
    homeLoadFromPath path (Except.ok t) (Except.ok i) (Except.ok g) =
      Except.ok { path := path, didSave := false, trust_cache := t,
                  install_cache := i, tool_storage := g } :=
  ⟨rfl, rfl, rfl, rfl⟩

/-- Unix-style path join, as performed by `PathBuf::join` with a relative
component on the platforms the home-directory fallback targets. -/
def pathJoin (base sub : List Char) : List Char := base ++ '/' :: sub

/-- The fixed home subdirectory name `.aftman` joined onto the user home
directory by `Home::load_from_env`. -/
def aftmanDirName : List Char := ['.', 'a', 'f', 't', 'm', 'a', 'n']

/-- Embedding of the root resolution performed by `Home::load_from_env`
(`src/lib/storage/home.rs`): `var("AFTMAN_ROOT")` returns `Ok` exactly when
the variable is set — to any value, including the empty string — and the code
uses that value verbatim; only when the variable is unset does it fall back to
`dirs::home_dir()/.aftman`, failing with `HomeNotFound` when no user home
directory exists.  The environment is passed in as `Option` values. -/
def homeResolveRoot (aftmanRootVar : Option (List Char))
    (userHomeDir : Option (List Char)) : Except AftmanError (List Char) :=
  match aftmanRootVar with
  | some rootStr => Except.ok rootStr
  | none =>
    match userHomeDir with
    | some h => Except.ok (pathJoin h aftmanDirName)
    | none => Except.error AftmanError.HomeNotFound

/-- Counterexample to C5: with `AFTMAN_ROOT` set to the empty string and the
user home `/u`, the code uses the empty string verbatim as the root path; the
claim instead requires the fallback `/u/.aftman` in this situation, so the
claim is false on the code. -/
theorem home_resolve_root_empty_counterexample :
    homeResolveRoot (some []) (some ['/', 'u']) = Except.ok [] ∧
    ([] : List Char) ≠ pathJoin ['/', 'u'] aftmanDirName :=
  ⟨rfl, by decide⟩

/-- C5 (amended): if `AFTMAN_ROOT` is set, its value is used verbatim as the
root path, even when it is the empty string; if it is unset, the root is
`<user-home>/.aftman`; if it is unset and no user home directory exists,
resolution fails with `HomeNotFound`. -/
theorem home_resolve_root_spec (rootVar : Option (List Char))
    (userHome : Option (List Char)) :
    (∀ r, rootVar = some r → homeResolveRoot rootVar userHome = Except.ok r) ∧
    (rootVar = none → ∀ h, userHome = some h →
      homeResolveRoot rootVar userHome = Except.ok (pathJoin h aftmanDirName)) ∧
    (rootVar = none → userHome = none →
      homeResolveRoot rootVar userHome = Except.error AftmanError.HomeNotFound) := by
  refine ⟨?_, ?_, ?_⟩
  · intro r hr; subst hr; rfl
  · intro hn h hh; subst hn; subst hh; rfl
  · intro hn hh; subst hn; subst hh; rfl

/-- Witness for C5 (amended): a set `AFTMAN_ROOT` of `/r` is used verbatim. -/
theorem home_resolve_root_spec_witness :
    (some ['/', 'r'] : Option (List Char)) = some ['/', 'r'] ∧
    homeResolveRoot (some ['/', 'r']) (some ['/', 'u']) = Except.ok ['/', 'r'] :=
  ⟨rfl, (home_resolve_root_spec (some ['/', 'r']) (some ['/', 'u'])).1 ['/', 'r'] rfl⟩

/-- Observable lifecycle state of one `Home` coordinator and its clones:
`handles` is the `Arc` strong count of the shared `path` (one per live `Home`
value), `didSave` the shared `did_save` atomic flag, and `warnings` counts the
error-level log lines emitted by `impl Drop for Home`. -/
structure HomeLifecycle where
  handles : Nat
  didSave : Bool
  warnings : Nat
deriving DecidableEq, Repr

/-- Events in the life of a coordinator: cloning a handle, a `Home::save`
call that succeeded, a `Home::save` call that failed, and dropping one
handle. -/
inductive HomeEvent
  | cloneHandle
  | saveOk
  | saveErr
  | dropHandle
deriving DecidableEq, Repr

/-- Lifecycle state right after `Home::load_from_path` succeeds: one handle,
`did_save` false, no warning emitted. -/
def homeLifecycleInit : HomeLifecycle :=
  { handles := 1, didSave := false, warnings := 0 }

/-- One lifecycle step.  `dropHandle` embeds `impl Drop for Home`: the handle
count decreases, and the warning fires exactly when the dropped handle was the
last one (strong count ≤ 1) and the save flag is still false.  `saveOk` embeds
a `Home::save` whose `try_join!` succeeded, which then stores `true` into
`did_save`; a failed save (`saveErr`) returns before the store and leaves the
flag unchanged.  `cloneHandle` embeds `Clone`, incrementing the strong count.
Events on a fully dropped coordinator (no handles left) cannot occur and
leave the state unchanged. -/
def homeLifecycleStep (st : HomeLifecycle) (ev : HomeEvent) : HomeLifecycle :=
  if st.handles = 0 then st
  else
    match ev with
    | HomeEvent.cloneHandle => { st with handles := st.handles + 1 }
    | HomeEvent.saveOk => { st with didSave := true }
    | HomeEvent.saveErr => st
    | HomeEvent.dropHandle =>
      { st with
        handles := st.handles - 1,
        warnings := st.warnings +
          (if st.handles = 1 ∧ st.didSave = false then 1 else 0) }

/-- Run a list of lifecycle events from the freshly loaded state. -/
def homeLifecycleRun (evs : List HomeEvent) : HomeLifecycle :=
  evs.foldl homeLifecycleStep homeLifecycleInit

/-- A fully dropped coordinator never changes state again. -/
theorem homeLifecycle_foldl_frozen (evs : List HomeEvent) (st : HomeLifecycle)
    (h : st.handles = 0) : evs.foldl homeLifecycleStep st = st := by
  induction evs with
  | nil => rfl
  | cons e rest ih => simp only [List.foldl_cons, homeLifecycleStep, h, if_pos, ih]

/-- While at least one handle stays live, no warning is ever emitted, and the
save flag is exactly the record of a successful save event. -/
theorem homeLifecycle_foldl_live (evs : List HomeEvent) : ∀ (st : HomeLifecycle),
    st.warnings = 0 → 1 ≤ (evs.foldl homeLifecycleStep st).handles →
    (evs.foldl homeLifecycleStep st).warnings = 0 ∧
    (HomeEvent.saveOk ∈ evs → (evs.foldl homeLifecycleStep st).didSave = true) ∧
    (HomeEvent.saveOk ∉ evs → (evs.foldl homeLifecycleStep st).didSave = st.didSave) := by
  induction evs with
  | nil => intro st hw _; exact ⟨hw, by simp, fun _ => rfl⟩
  | cons e rest ih =>
    intro st hw hfin
    rw [List.foldl_cons] at hfin ⊢
    by_cases hst0 : st.handles = 0
    · rw [show homeLifecycleStep st e = st from if_pos hst0,
        homeLifecycle_foldl_frozen rest st hst0] at hfin
      omega
    · by_cases h0 : (homeLifecycleStep st e).handles = 0
      · rw [homeLifecycle_foldl_frozen rest _ h0] at hfin
        omega
      · have hw' : (homeLifecycleStep st e).warnings = 0 := by
          cases e with
          | cloneHandle => simp [homeLifecycleStep, if_neg hst0, hw]
          | saveOk => simp [homeLifecycleStep, if_neg hst0, hw]
          | saveErr => simp [homeLifecycleStep, if_neg hst0, hw]
          | dropHandle =>
            have h2 : ¬(st.handles = 1 ∧ st.didSave = false) := by
              intro hone
              exact h0 (by simp [homeLifecycleStep, if_neg hst0, hone.1])
            simp [homeLifecycleStep, if_neg hst0, hw, h2]
        obtain ⟨hfw, hfin_mem, hfin_nmem⟩ := ih (homeLifecycleStep st e) hw' hfin
        refine ⟨hfw, ?_, ?_⟩
        · intro hmem
          rcases List.mem_cons.mp hmem with he | hr
          · rcases Decidable.em (HomeEvent.saveOk ∈ rest) with hr' | hr'
            · exact hfin_mem hr'
            · rw [hfin_nmem hr', ← he]
              simp [homeLifecycleStep, if_neg hst0]
          · exact hfin_mem hr
        · intro hnmem
          have hne : e ≠ HomeEvent.saveOk := fun h => hnmem (h ▸ List.mem_cons_self e rest)
          have hnr : HomeEvent.saveOk ∉ rest := fun h => hnmem (List.mem_cons_of_mem e h)
          rw [hfin_nmem hnr]
          cases e with
          | cloneHandle => simp [homeLifecycleStep, if_neg hst0]
          | saveOk => exact absurd rfl hne
          | saveErr => simp [homeLifecycleStep, if_neg hst0]
          | dropHandle => simp [homeLifecycleStep, if_neg hst0]

/-- C3: for a coordinator whose event history leaves exactly one live handle,
dropping that last handle emits no warning when some `Home::save` succeeded
earlier, and emits exactly one error-level warning when no save ever
succeeded (never called, or called but failed). -/
theorem home_drop_warning (evs : List HomeEvent)
    (hlast : (homeLifecycleRun evs).handles = 1) :
    (HomeEvent.saveOk ∈ evs →
      (homeLifecycleRun (evs ++ [HomeEvent.dropHandle])).warnings = 0) ∧
    (HomeEvent.saveOk ∉ evs →
      (homeLifecycleRun (evs ++ [HomeEvent.dropHandle])).warnings = 1) := by
  have hlive := homeLifecycle_foldl_live evs homeLifecycleInit rfl
    (by unfold homeLifecycleRun at hlast; omega)
  obtain ⟨hfw, hmem, hnmem⟩ := hlive
  unfold homeLifecycleRun at hlast ⊢
  rw [List.foldl_append, List.foldl_cons, List.foldl_nil]
  constructor
  · intro h
    have hds := hmem h
    simp [homeLifecycleStep, hlast, hds, hfw]
  · intro h
    have hds : (List.foldl homeLifecycleStep homeLifecycleInit evs).didSave = false := hnmem h
    simp [homeLifecycleStep, hlast, hds, hfw]

/-- Witness for C3: the trivial history (load, then drop the only handle with
no save ever attempted) emits exactly one warning. -/
theorem home_drop_warning_witness :
    (homeLifecycleRun []).handles = 1 ∧
    HomeEvent.saveOk ∉ ([] : List HomeEvent) ∧
    (homeLifecycleRun ([] ++ [HomeEvent.dropHandle])).warnings = 1 :=
  ⟨rfl, by simp, (home_drop_warning [] rfl).2 (by simp)⟩

/-- Split a text into its lines at `'\n'`.  A text that ends in a newline
yields a final empty line; the empty text is the single empty line. -/
def splitLines : List Char → List (List Char)
  | [] => [[]]
  | c :: rest =>
    if c = '\n' then [] :: splitLines rest
    else
      match splitLines rest with
      | [] => [[c]]
      | l :: ls => (c :: l) :: ls

/-- Join lines back into a text with `'\n'` separators (no trailing
separator: the inverse of `splitLines`). -/
def joinLines : List (List Char) → List Char
  | [] => []
  | [l] => l
  | l :: ls => l ++ '\n' :: joinLines ls

/-- Splitting never yields an empty list of lines. -/
theorem splitLines_ne_nil (t : List Char) : splitLines t ≠ [] := by
  cases t with
  | nil => simp [splitLines]
  | cons c rest =>
    simp only [splitLines]
    by_cases h : c = '\n'
    · simp [h]
    · simp only [h, if_false]
      cases hs : splitLines rest <;> simp

/-- Joining the split lines of a text restores the text. -/
theorem joinLines_splitLines (t : List Char) : joinLines (splitLines t) = t := by
  induction t with
  | nil => rfl
  | cons c rest ih =>
    obtain ⟨l, ls, he⟩ : ∃ l ls, splitLines rest = l :: ls := by
      cases hs : splitLines rest with
      | nil => exact absurd hs (splitLines_ne_nil rest)
      | cons l ls => exact ⟨l, ls, rfl⟩
    rw [he] at ih
    simp only [splitLines]
    by_cases h : c = '\n'
    · subst h
      simp only [if_pos rfl, he]
      cases ls with
      | nil => simpa [joinLines] using ih
      | cons l2 ls2 => simpa [joinLines] using ih
    · simp only [h, if_false, he]
      cases ls with
      | nil =>
        simp only [joinLines] at ih ⊢
        rw [ih]
      | cons l2 ls2 =>
        simp only [joinLines] at ih ⊢
        rw [List.cons_append, ih]

/-- A line without a newline splits into itself alone. -/
theorem splitLines_no_newline (l : List Char) (h : '\n' ∉ l) : splitLines l = [l] := by
  induction l with
  | nil => rfl
  | cons c rest ih =>
    have hc : c ≠ '\n' := fun hc => h (hc ▸ List.mem_cons_self c rest)
    have hr : '\n' ∉ rest := fun hr => h (List.mem_cons_of_mem c hr)
    simp only [splitLines, hc, if_false, ih hr]

/-- Splitting a newline-free line glued by `'\n'` onto a tail peels off
exactly that line. -/
theorem splitLines_line_append (l rest : List Char) (h : '\n' ∉ l) :
    splitLines (l ++ '\n' :: rest) = l :: splitLines rest := by
  induction l with
  | nil => simp [splitLines]
  | cons c l' ih =>
    have hc : c ≠ '\n' := fun hc => h (hc ▸ List.mem_cons_self c l')
    have hl : '\n' ∉ l' := fun hl => h (List.mem_cons_of_mem c hl)
    have ih' := ih hl
    simp only [List.cons_append, splitLines, hc, if_false, List.append_eq]
    rw [ih']

/-- Splitting the join of nonempty, newline-free lines restores the lines. -/
theorem splitLines_joinLines (ls : List (List Char)) (hne : ls ≠ [])
    (h : ∀ l ∈ ls, '\n' ∉ l) : splitLines (joinLines ls) = ls := by
  induction ls with
  | nil => exact absurd rfl hne
  | cons l ls' ih =>
    cases ls' with
    | nil => exact splitLines_no_newline l (h l (List.mem_cons_self l []))
    | cons l2 ls2 =>
      have h1 : '\n' ∉ l := h l (List.mem_cons_self l (l2 :: ls2))
      have h2 : ∀ x ∈ l2 :: ls2, '\n' ∉ x := fun x hx => h x (List.mem_cons_of_mem l hx)
      simp only [joinLines, splitLines_line_append l _ h1, ih (by simp) h2]

/-- A value of a top-level table entry: either a basic string (rendered in
double quotes) or any other scalar kept as raw text.  Embeds the value side
of `toml_edit::Item` restricted to the table-of-scalars grammar of the auth
file (spec §6). -/
inductive TomlValueRepr
  | str (s : List Char)
  | other (raw : List Char)
deriving DecidableEq, Repr

/-- One `key = value` line with all its lexical trivia: whitespace before the
key, between key and `=`, between `=` and the value, and the trailing
whitespace/comment after the value. -/
structure TomlEntry where
  pre : List Char
  key : List Char
  preEq : List Char
  postEq : List Char
  value : TomlValueRepr
  post : List Char
deriving DecidableEq, Repr

/-- One line of a format-preserving document: either pure trivia (blank line
or comment line, kept verbatim) or a table entry. -/
inductive TomlLine
  | trivia (raw : List Char)
  | entry (e : TomlEntry)
deriving DecidableEq, Repr

/-- Space characters inside a line (TOML whitespace: space and tab). -/
def isTomlSpace (c : Char) : Bool := c = ' ' || c = '\t'

/-- Characters of a TOML bare key: ASCII letters, digits, `-` and `_`. -/
def isKeyChar (c : Char) : Bool := c.isAlphanum || c = '-' || c = '_'

/-- Characters of an unquoted scalar token (integers, booleans, dates …):
anything up to whitespace, a comment or a quote. -/
def isTokChar (c : Char) : Bool := !isTomlSpace c && c != '#' && c != '"'

/-- After a value only whitespace, optionally followed by a `#` comment, may
remain on the line. -/
def isValidPost (r : List Char) : Bool :=
  match r.dropWhile isTomlSpace with
  | [] => true
  | c :: _ => c == '#'

/-- Parse one line.  Modelled from the spec: the line grammar of the
format-preserving document model (§4.1) restricted to the auth file's
table-of-scalars format (§6): blank and comment lines are trivia kept
verbatim; otherwise the line must be `key = value` with an optional trailing
comment, where the value is a double-quoted escape-free basic string or an
unquoted scalar token.  Escaped strings and the larger TOML grammar
(multi-line values, arrays, sub-tables) are outside the modelled subset and
are rejected. -/
def parseLine (l : List Char) : Option TomlLine :=
  let rest1 := l.dropWhile isTomlSpace
  if rest1.head? = some '#' || rest1.isEmpty then some (TomlLine.trivia l)
  else
    let pre := l.takeWhile isTomlSpace
    let key := rest1.takeWhile isKeyChar
    let rest2 := rest1.dropWhile isKeyChar
    if key.isEmpty then none
    else
      let preEq := rest2.takeWhile isTomlSpace
      match rest2.dropWhile isTomlSpace with
      | '=' :: rest4 =>
        let postEq := rest4.takeWhile isTomlSpace
        match rest4.dropWhile isTomlSpace with
        | '"' :: rest6 =>
          let content := rest6.takeWhile (fun c => c != '"')
          match rest6.dropWhile (fun c => c != '"') with
          | '"' :: rest7 =>
            if content.contains '\\' then none
            else if isValidPost rest7 then
              some (TomlLine.entry
                ⟨pre, key, preEq, postEq, TomlValueRepr.str content, rest7⟩)
            else none
          | _ => none
        | rest5 =>
          let tok := rest5.takeWhile isTokChar
          let rest7 := rest5.dropWhile isTokChar
          if tok.isEmpty then none
          else if isValidPost rest7 then
            some (TomlLine.entry
              ⟨pre, key, preEq, postEq, TomlValueRepr.other tok, rest7⟩)
          else none
      | _ => none

/-- Serialize one value: strings regain their quotes, other scalars are
emitted raw. -/
def renderValue : TomlValueRepr → List Char
  | TomlValueRepr.str s => '"' :: (s ++ ['"'])
  | TomlValueRepr.other raw => raw

/-- Serialize one line, reassembling every piece of trivia around it. -/
def renderLine : TomlLine → List Char
  | TomlLine.trivia raw => raw
  | TomlLine.entry e =>
    e.pre ++ e.key ++ e.preEq ++ '=' :: (e.postEq ++ renderValue e.value ++ e.post)

/-- The keys of the entry lines of a document, in order. -/
def entryKeysOf : List TomlLine → List (List Char)
  | [] => []
  | TomlLine.trivia _ :: rest => entryKeysOf rest
  | TomlLine.entry e :: rest => e.key :: entryKeysOf rest

/-- Parse a whole document: split into lines, parse each line, and reject
duplicate top-level keys as `toml_edit` does.  Embeds
`str::parse::<DocumentMut>` on the modelled grammar subset. -/
def parseDocument (t : List Char) : Option (List TomlLine) :=
  ((splitLines t).mapM parseLine).bind fun lns =>
    if (entryKeysOf lns).Nodup then some lns else none

/-- Serialize a whole document.  Embeds `DocumentMut::to_string`. -/
def renderDocument (lns : List TomlLine) : List Char :=
  joinLines (lns.map renderLine)

/-- Table lookup by key: the value of the first entry line carrying the key.
Embeds `toml_edit::Table::get` on the modelled subset. -/
def docGet : List TomlLine → List Char → Option TomlValueRepr
  | [], _ => none
  | TomlLine.trivia _ :: rest, key => docGet rest key
  | TomlLine.entry e :: rest, key =>
    if e.key = key then some e.value else docGet rest key

/-- Key membership.  Embeds `toml_edit::Table::contains_key`. -/
def docContainsKey (lns : List TomlLine) (key : List Char) : Bool :=
  (docGet lns key).isSome

/-- Table insert, preserving trivia: an existing entry keeps its position and
surrounding trivia and only its value is replaced; a new key is appended at
the end of the table with default decor.  Returns the new document and the
replaced value, if any.  Embeds `toml_edit::Table::insert` (spec §4.1). -/
def docInsert : List TomlLine → List Char → TomlValueRepr →
    List TomlLine × Option TomlValueRepr
  | [], key, v => ([TomlLine.entry ⟨[], key, [' '], [' '], v, []⟩], none)
  | TomlLine.trivia r :: rest, key, v =>
    (TomlLine.trivia r :: (docInsert rest key v).1, (docInsert rest key v).2)
  | TomlLine.entry e :: rest, key, v =>
    if e.key = key then (TomlLine.entry { e with value := v } :: rest, some e.value)
    else (TomlLine.entry e :: (docInsert rest key v).1, (docInsert rest key v).2)

/-- Modelled from the spec: `ArtifactProvider` (in `src/lib/sources`, not
under the embedded sources) is a closed enumeration of remote artifact
providers, at least GitHub, each with a unique lowercase ASCII string key. -/
inductive ArtifactProvider
  | GitHub
deriving DecidableEq, Repr

/-- The stable string key of a provider (`ArtifactProvider::as_str`). -/
def ArtifactProvider.as_str : ArtifactProvider → List Char
  | ArtifactProvider.GitHub => ['g', 'i', 't', 'h', 'u', 'b']

/-- The `AuthManifest` struct from `src/lib/manifests/auth.rs`: a wrapper
around a format-preserving document. -/
structure AuthManifest where
  document : List TomlLine
deriving DecidableEq, Repr

/-- Embedding of `impl FromStr for AuthManifest`: parse the text into a
document.  The `toml_edit::TomlError` on failure carries no information the
claims need, so failure is `none`. -/
def AuthManifest.from_str (s : List Char) : Option AuthManifest :=
  (parseDocument s).map AuthManifest.mk

/-- Embedding of `impl ToString for AuthManifest`: serialize the document. -/
def AuthManifest.to_string (m : AuthManifest) : List Char :=
  renderDocument m.document

/-- Embedding of `AuthManifest::has_token`: key membership of the provider's
string key. -/
def AuthManifest.has_token (m : AuthManifest) (p : ArtifactProvider) : Bool :=
  docContainsKey m.document p.as_str

/-- Embedding of `Item::as_str` restricted to the modelled values: a string
value yields its contents, anything else `None`. -/
def itemAsStr : TomlValueRepr → Option (List Char)
  | TomlValueRepr.str s => some s
  | TomlValueRepr.other _ => none

/-- Embedding of `AuthManifest::get_token`: look the provider's key up in the
document, then keep the value only when it is a string. -/
def AuthManifest.get_token (m : AuthManifest) (p : ArtifactProvider) :
    Option (List Char) := do
  let token ← docGet m.document p.as_str
  itemAsStr token

/-- Embedding of `AuthManifest::set_token`: insert the string value under the
provider's key and report whether an older item was replaced.  State is
passed explicitly: the returned pair is the updated manifest and the returned
boolean. -/
def AuthManifest.set_token (m : AuthManifest) (p : ArtifactProvider)
    (token : List Char) : AuthManifest × Bool :=
  ((AuthManifest.mk (docInsert m.document p.as_str (TomlValueRepr.str token)).1),
    (docInsert m.document p.as_str (TomlValueRepr.str token)).2.isSome)

/-- Serializing a parsed line reproduces the line byte for byte. -/
theorem renderLine_parseLine (l : List Char) (ln : TomlLine)
    (h : parseLine l = some ln) : renderLine ln = l := by
  have e1 := List.takeWhile_append_dropWhile isTomlSpace l
  have h2 := List.takeWhile_append_dropWhile isKeyChar (l.dropWhile isTomlSpace)
  simp only [parseLine] at h
  split at h
  · injection h with h'
    subst h'
    rfl
  · split at h
    · exact absurd h (by simp)
    · have h3 := List.takeWhile_append_dropWhile isTomlSpace
        ((l.dropWhile isTomlSpace).dropWhile isKeyChar)
      split at h
      case _ rest4 heq3 =>
        rw [heq3] at h3
        have h4 := List.takeWhile_append_dropWhile isTomlSpace rest4
        split at h
        case _ rest6 heq5 =>
          rw [heq5] at h4
          have h6 := List.takeWhile_append_dropWhile (fun c => c != '"') rest6
          split at h
          case _ rest7 heq6 =>
            rw [heq6] at h6
            split at h
            · exact absurd h (by simp)
            · split at h
              · injection h with h'
                subst h'
                simp only [renderLine, renderValue, List.append_assoc, List.cons_append,
                  List.singleton_append, List.nil_append]
                rw [h6, h4, h3, h2, e1]
              · exact absurd h (by simp)
          case _ heq6 =>
            exact absurd h (by simp)
        case _ heq5 =>
          rw [show rest4.dropWhile isTomlSpace =
            rest4.dropWhile isTomlSpace from rfl] at h4
          split at h
          · exact absurd h (by simp)
          · split at h
            · injection h with h'
              subst h'
              simp only [renderLine, renderValue, List.append_assoc, List.cons_append,
                List.singleton_append, List.nil_append]
              rw [List.takeWhile_append_dropWhile isTokChar (rest4.dropWhile isTomlSpace),
                h4, h3, h2, e1]
            · exact absurd h (by simp)
      case _ heq3 =>
        exact absurd h (by simp)

/-- Rendering the lines parsed by `mapM parseLine` restores the original
lines. -/
theorem map_renderLine_mapM (ls : List (List Char)) (lns : List TomlLine)
    (h : ls.mapM parseLine = some lns) : lns.map renderLine = ls := by
  induction ls generalizing lns with
  | nil =>
    simp only [List.mapM_nil, pure, Option.some.injEq] at h
    subst h
    rfl
  | cons a as ih =>
    rw [List.mapM_cons] at h
    cases hp : parseLine a with
    | none => rw [hp] at h; simp at h
    | some ln1 =>
      rw [hp] at h
      cases hm : as.mapM parseLine with
      | none => rw [hm] at h; simp at h
      | some lns' =>
        rw [hm] at h
        simp at h
        subst h
        simp only [List.map_cons, renderLine_parseLine a ln1 hp, ih lns' hm]

/-- C1: every text that parses successfully as an auth manifest serializes
back to exactly the same text: `AuthManifest::from_str` followed by
`to_string` is the identity on its domain (byte-identical round-trip when no
mutations occur). -/
theorem auth_manifest_roundtrip (t : List Char) (m : AuthManifest)
    (h : AuthManifest.from_str t = some m) : AuthManifest.to_string m = t := by
  unfold AuthManifest.from_str at h
  cases hp : parseDocument t with
  | none => rw [hp] at h; exact Option.noConfusion h
  | some lns =>
    rw [hp] at h
    simp only [Option.map_some', Option.some.injEq] at h
    subst h
    unfold AuthManifest.to_string renderDocument
    unfold parseDocument at hp
    cases hm : (splitLines t).mapM parseLine with
    | none => rw [hm] at hp; exact Option.noConfusion hp
    | some lns2 =>
      rw [hm] at hp
      rw [Option.some_bind] at hp
      by_cases hnd : (entryKeysOf lns2).Nodup
      · rw [if_pos hnd] at hp
        injection hp with hp'
        subst hp'
        simp only [map_renderLine_mapM (splitLines t) lns2 hm, joinLines_splitLines]
      · rw [if_neg hnd] at hp
        exact Option.noConfusion hp

/-- A small concrete manifest text (spec scenario S2): a comment line, a
GitHub token entry, and a trailing newline. -/
def exampleManifestText : List Char :=
  ['#', ' ', 'h', 'e', 'l', 'l', 'o', '\n',
   'g', 'i', 't', 'h', 'u', 'b', ' ', '=', ' ', '"', 'x', '"', '\n']

/-- The document that `exampleManifestText` parses to. -/
def exampleParsedManifest : AuthManifest :=
  AuthManifest.mk
    [TomlLine.trivia ['#', ' ', 'h', 'e', 'l', 'l', 'o'],
     TomlLine.entry ⟨[], ['g', 'i', 't', 'h', 'u', 'b'], [' '], [' '],
       TomlValueRepr.str ['x'], []⟩,
     TomlLine.trivia []]

/-- Witness for C1: the concrete text of scenario S2 parses, and serializing
the parse reproduces it byte for byte. -/
theorem auth_manifest_roundtrip_witness :
    AuthManifest.from_str exampleManifestText = some exampleParsedManifest ∧
    AuthManifest.to_string exampleParsedManifest = exampleManifestText :=
  ⟨by decide, auth_manifest_roundtrip exampleManifestText exampleParsedManifest (by decide)⟩

/-- Looking up a key right after inserting under it yields the inserted
value. -/
theorem docGet_docInsert (lns : List TomlLine) (key : List Char) (v : TomlValueRepr) :
    docGet (docInsert lns key v).1 key = some v := by
  induction lns with
  | nil => simp [docInsert, docGet]
  | cons ln rest ih =>
    cases ln with
    | trivia r => simp [docInsert, docGet, ih]
    | entry e =>
      by_cases he : e.key = key
      · simp [docInsert, docGet, he]
      · simp [docInsert, docGet, he, ih]

/-- The replaced-value report of an insert is exactly prior key membership. -/
theorem docInsert_snd_isSome (lns : List TomlLine) (key : List Char) (v : TomlValueRepr) :
    (docInsert lns key v).2.isSome = (docGet lns key).isSome := by
  induction lns with
  | nil => simp [docInsert, docGet]
  | cons ln rest ih =>
    cases ln with
    | trivia r => simp [docInsert, docGet, ih]
    | entry e =>
      by_cases he : e.key = key
      · simp [docInsert, docGet, he]
      · simp [docInsert, docGet, he, ih]

/-- C2: after `set_token(p, s)` the manifest yields `get_token(p) = Some s`,
and the boolean returned by `set_token` is true exactly when an item already
existed under `p`'s key before the call. -/
theorem auth_set_token_get_token (m : AuthManifest) (p : ArtifactProvider) (s : List Char) :
    ((m.set_token p s).1.get_token p = some s) ∧
    ((m.set_token p s).2 = m.has_token p) := by
  constructor
  · unfold AuthManifest.set_token AuthManifest.get_token
    simp [docGet_docInsert, itemAsStr]
  · unfold AuthManifest.set_token AuthManifest.has_token docContainsKey
    simp [docInsert_snd_isSome]

/-- C8: `get_token` returns the stored string iff the provider's top-level
key is present with a string-typed value; a missing key, and equally a
present key with a non-string value, yield `None` rather than an error (the
return type offers no error at all). -/
theorem auth_get_token_string_iff (m : AuthManifest) (p : ArtifactProvider) :
    (∀ s, m.get_token p = some s ↔
      docGet m.document p.as_str = some (TomlValueRepr.str s)) ∧
    (docGet m.document p.as_str = none → m.get_token p = none) ∧
    (∀ raw, docGet m.document p.as_str = some (TomlValueRepr.other raw) →
      m.get_token p = none) := by
  refine ⟨fun s => ?_, fun hd => ?_, fun raw hd => ?_⟩
  · unfold AuthManifest.get_token
    cases hd : docGet m.document p.as_str with
    | none => simp
    | some v =>
      cases v with
      | str s' => simp [itemAsStr]
      | other raw => simp [itemAsStr]
  · unfold AuthManifest.get_token
    rw [hd]
    rfl
  · unfold AuthManifest.get_token
    rw [hd]
    rfl

/-- Witness for C8: on the concrete manifest of scenario S2 the GitHub key
holds the string value `x` and `get_token` returns it. -/
theorem auth_get_token_string_iff_witness :
    docGet exampleParsedManifest.document ArtifactProvider.GitHub.as_str =
      some (TomlValueRepr.str ['x']) ∧
    AuthManifest.get_token exampleParsedManifest ArtifactProvider.GitHub = some ['x'] :=
  ⟨by decide,
    ((auth_get_token_string_iff exampleParsedManifest ArtifactProvider.GitHub).1
      ['x']).mpr (by decide)⟩

/-- C10: when the provider's key is present with a non-string value,
`has_token` is true and `get_token` is `None`, yet `set_token` still returns
true: the boolean reports prior presence of any item under the key, not of a
prior string token. -/
theorem auth_set_token_nonstring_prior (m : AuthManifest) (p : ArtifactProvider)
    (raw s : List Char)
    (h : docGet m.document p.as_str = some (TomlValueRepr.other raw)) :
    m.has_token p = true ∧ m.get_token p = none ∧ (m.set_token p s).2 = true := by
  refine ⟨?_, ?_, ?_⟩
  · unfold AuthManifest.has_token docContainsKey
    rw [h]
    rfl
  · unfold AuthManifest.get_token
    rw [h]
    rfl
  · unfold AuthManifest.set_token
    simp only [docInsert_snd_isSome, h, Option.isSome_some]

/-- A concrete manifest whose GitHub key holds a non-string value. -/
def exampleNonStringManifest : AuthManifest :=
  AuthManifest.mk
    [TomlLine.entry ⟨[], ['g', 'i', 't', 'h', 'u', 'b'], [' '], [' '],
      TomlValueRepr.other ['1', '2', '3'], []⟩]

/-- Witness for C10: with `github = 123` in the document, `has_token` is
true, `get_token` is `None`, and `set_token` reports a replaced prior item. -/
theorem auth_set_token_nonstring_prior_witness :
    docGet exampleNonStringManifest.document ArtifactProvider.GitHub.as_str =
      some (TomlValueRepr.other ['1', '2', '3']) ∧
    (exampleNonStringManifest.has_token ArtifactProvider.GitHub = true ∧
     exampleNonStringManifest.get_token ArtifactProvider.GitHub = none ∧
     (exampleNonStringManifest.set_token ArtifactProvider.GitHub ['y']).2 = true) :=
  ⟨by decide,
    auth_set_token_nonstring_prior exampleNonStringManifest ArtifactProvider.GitHub
      ['1', '2', '3'] ['y'] (by decide)⟩

/-- A line that starts with `#` is a comment and parses to itself as
trivia. -/
theorem parseLine_hash (rest : List Char) :
    parseLine ('#' :: rest) = some (TomlLine.trivia ('#' :: rest)) := by
  have hd : ('#' :: rest).dropWhile isTomlSpace = '#' :: rest := rfl
  simp [parseLine, hd]

/-- Possible states of the `auth.toml` file as seen by the file I/O helpers
(spec §4.4): absent, present with contents, or failing with some other
filesystem error. -/
inductive FsFile
  | absent
  | content (text : List Char)
  | ioError
deriving DecidableEq, Repr

/-- Embedding of `load_from_file_fallible` specialised to `AuthManifest`.
Modelled from the spec (§4.4; the helper lives in `src/lib/util`, outside
the embedded sources): a missing file is the distinct `FileNotFound` error,
any other filesystem failure is `Io`, and contents that do not parse give
`Parse`. -/
def loadFromFileFallible : FsFile → Except AftmanError AuthManifest
  | FsFile.absent => Except.error AftmanError.FileNotFound
  | FsFile.ioError => Except.error AftmanError.Io
  | FsFile.content t =>
    match AuthManifest.from_str t with
    | some m => Except.ok m
    | none => Except.error AftmanError.Parse

/-- Second line of the default template: the header comment. -/
def defaultTemplateLine2 : List Char :=
  '#' :: [' ', 'T', 'h', 'i', 's', ' ', 'f', 'i', 'l', 'e', ' ', 'l', 'i', 's', 't', 's',
    ' ', 'a', 'u', 't', 'h', 'e', 'n', 't', 'i', 'c', 'a', 't', 'i', 'o', 'n', ' ',
    't', 'o', 'k', 'e', 'n', 's', ' ', 'm', 'a', 'n', 'a', 'g', 'e', 'd', ' ', 'b', 'y',
    ' ', 'A', 'f', 't', 'm', 'a', 'n', ',', ' ', 'a', ' ', 'c', 'r', 'o', 's', 's', '-',
    'p', 'l', 'a', 't', 'f', 'o', 'r', 'm', ' ', 't', 'o', 'o', 'l', 'c', 'h', 'a', 'i',
    'n', ' ', 'm', 'a', 'n', 'a', 'g', 'e', 'r', '.']

/-- Third line of the default template with the repository URL already in
place of the `<|REPOSITORY_URL|>` placeholder. -/
def defaultTemplateLine3 (url : List Char) : List Char :=
  '#' :: ([' ', 'F', 'o', 'r', ' ', 'm', 'o', 'r', 'e', ' ', 'i', 'n', 'f', 'o', 'r',
    'm', 'a', 't', 'i', 'o', 'n', ',', ' ', 's', 'e', 'e', ' '] ++ url)

/-- Fifth line of the default template: the commented-out example entry. -/
def defaultTemplateLine5 : List Char :=
  '#' :: [' ', 'g', 'i', 't', 'h', 'u', 'b', ' ', '=', ' ', '"', 'g', 'h', 'p', '_',
    't', 'o', 'k', 'e', 'n', 'a', 'b', 'c', 'd', 'e', 'f', '1', '2', '3', '4', '5',
    '6', '7', '8', '9', '0', '"']

/-- Embedding of `MANIFEST_DEFAULT_CONTENTS` after the build-time
substitution of the repository URL for the placeholder (`impl Default for
AuthManifest` substitutes the compile-time `CARGO_PKG_REPOSITORY` value; the
URL stays a parameter here since the crate manifest is not among the
embedded sources).  The template is a leading blank line, two comment lines,
a blank line, one commented-out example entry, and a trailing newline. -/
def MANIFEST_DEFAULT_CONTENTS (url : List Char) : List Char :=
  joinLines [[], defaultTemplateLine2, defaultTemplateLine3 url, [],
    defaultTemplateLine5, []]

/-- The six trivia lines the default template parses to. -/
def defaultTemplateLines (url : List Char) : List TomlLine :=
  [TomlLine.trivia [], TomlLine.trivia defaultTemplateLine2,
   TomlLine.trivia (defaultTemplateLine3 url), TomlLine.trivia [],
   TomlLine.trivia defaultTemplateLine5, TomlLine.trivia []]

/-- Embedding of `impl Default for AuthManifest`: parse the substituted
default template.  The Rust code `unwrap`s this parse; the `getD` fallback
to the empty document stands in for the panic and is unreachable for URLs
without a newline (`default_template_parses`). -/
def AuthManifest.default (url : List Char) : AuthManifest :=
  AuthManifest.mk ((parseDocument (MANIFEST_DEFAULT_CONTENTS url)).getD [])

/-- Embedding of `AuthManifest::load_or_create`: recover exactly the
`FileNotFound` error by building the default manifest and saving it; all
other errors propagate.  The second component of a successful result records
the file contents written by the recovery save (`none` when nothing was
written); the save itself is modelled as succeeding. -/
def AuthManifest.load_or_create (url : List Char) (f : FsFile) :
    Except AftmanError (AuthManifest × Option (List Char)) :=
  match loadFromFileFallible f with
  | Except.ok m => Except.ok (m, none)
  | Except.error AftmanError.FileNotFound =>
    Except.ok (AuthManifest.default url,
      some (AuthManifest.to_string (AuthManifest.default url)))
  | Except.error e => Except.error e

/-- For every repository URL without a newline, the default template parses
to six trivia lines and no entries. -/
theorem default_template_parses (url : List Char) (h : '\n' ∉ url) :
    parseDocument (MANIFEST_DEFAULT_CONTENTS url) = some (defaultTemplateLines url) := by
  have hsplit : splitLines (MANIFEST_DEFAULT_CONTENTS url) =
      [[], defaultTemplateLine2, defaultTemplateLine3 url, [], defaultTemplateLine5, []] := by
    unfold MANIFEST_DEFAULT_CONTENTS
    apply splitLines_joinLines
    · simp
    · intro l hl
      simp only [List.mem_cons, List.not_mem_nil, or_false] at hl
      rcases hl with rfl | rfl | rfl | rfl | rfl | rfl
      · simp
      · decide
      · unfold defaultTemplateLine3
        intro hmem
        rcases List.mem_cons.mp hmem with hc | hmem2
        · exact absurd hc (by decide)
        · rcases List.mem_append.mp hmem2 with hpre | hurl
          · exact absurd hpre (by decide)
          · exact h hurl
      · simp
      · decide
      · simp
  have p0 : parseLine [] = some (TomlLine.trivia []) := rfl
  have p2 : parseLine defaultTemplateLine2 = some (TomlLine.trivia defaultTemplateLine2) :=
    parseLine_hash _
  have p3 : parseLine (defaultTemplateLine3 url) =
      some (TomlLine.trivia (defaultTemplateLine3 url)) := parseLine_hash _
  have p5 : parseLine defaultTemplateLine5 = some (TomlLine.trivia defaultTemplateLine5) :=
    parseLine_hash _
  unfold parseDocument
  rw [hsplit]
  simp only [List.mapM_cons, List.mapM_nil, p0, p2, p3, p5, Option.some_bind,
    Option.pure_def, Option.bind_some]
  simp [entryKeysOf, defaultTemplateLines]

/-- C9: in a directory without `auth.toml`, `load_or_create` recovers the
`FileNotFound` error by materializing the default template with the
repository URL substituted, writing exactly that template to disk before
returning; the returned manifest has no token for any provider; and every
error other than `FileNotFound` propagates unchanged. -/
theorem auth_load_or_create_recovery (url : List Char) (h : '\n' ∉ url) :
    (AuthManifest.load_or_create url FsFile.absent =
      Except.ok (AuthManifest.default url, some (MANIFEST_DEFAULT_CONTENTS url))) ∧
    (∀ p, (AuthManifest.default url).has_token p = false) ∧
    (∀ f e, loadFromFileFallible f = Except.error e → e ≠ AftmanError.FileNotFound →
      AuthManifest.load_or_create url f = Except.error e) := by
  have hparse := default_template_parses url h
  have hdoc : AuthManifest.default url = AuthManifest.mk (defaultTemplateLines url) := by
    unfold AuthManifest.default
    rw [hparse]
    rfl
  have hrender : AuthManifest.to_string (AuthManifest.default url) =
      MANIFEST_DEFAULT_CONTENTS url := by
    rw [hdoc]
    unfold AuthManifest.to_string renderDocument defaultTemplateLines MANIFEST_DEFAULT_CONTENTS
    rfl
  refine ⟨?_, ?_, ?_⟩
  · simp only [AuthManifest.load_or_create, loadFromFileFallible, hrender]
  · intro p
    rw [hdoc]
    unfold AuthManifest.has_token docContainsKey
    simp [defaultTemplateLines, docGet]
  · intro f e hf hne
    unfold AuthManifest.load_or_create
    rw [hf]
    cases e with
    | FileNotFound => exact absurd rfl hne
    | HomeNotFound => rfl
    | Io => rfl
    | Parse => rfl

/-- A concrete newline-free repository URL for the C9 witness. -/
def exampleRepositoryUrl : List Char :=
  ['h', 't', 't', 'p', 's', ':', '/', '/', 'e', 'x', 'a', 'm', 'p', 'l', 'e']

/-- Witness for C9: with a concrete URL, `load_or_create` on an absent file
returns the default manifest, writes the substituted template, and reports
no GitHub token. -/
theorem auth_load_or_create_recovery_witness :
    '\n' ∉ exampleRepositoryUrl ∧
    AuthManifest.load_or_create exampleRepositoryUrl FsFile.absent =
      Except.ok (AuthManifest.default exampleRepositoryUrl,
        some (MANIFEST_DEFAULT_CONTENTS exampleRepositoryUrl)) ∧
    (AuthManifest.default exampleRepositoryUrl).has_token ArtifactProvider.GitHub = false :=
  ⟨by decide, (auth_load_or_create_recovery exampleRepositoryUrl (by decide)).1,
    (auth_load_or_create_recovery exampleRepositoryUrl (by decide)).2.1 ArtifactProvider.GitHub⟩
